import Mathlib

/-!
Verification of the GeoRAG segmentation / indexing / retrieval core.

This file is a shallow embedding of the JavaScript pipeline:
JavaScript strings are modelled as Lean `String` (a list of characters),
JavaScript arrays as Lean `List`, JavaScript numbers used as array indices
as `Int`/`Nat`, and JavaScript similarity scores as `ℚ` (carried opaquely).
External capabilities (file system, embedding model, vector store,
generation model) are modelled as explicit oracle parameters.
Loops that may not terminate (they do not, for degenerate policies)
are embedded with an explicit fuel parameter; `none` means the fuel ran
out before the loop finished.
-/

namespace GeoRAG

/-! ## JavaScript primitives -/

/-- Index clamping used by JavaScript `Array.prototype.slice` /
`String.prototype.slice`: a negative index counts from the end
(clamped at 0), a positive one is clamped at the length. -/
def jsSliceIdx (len : Nat) (x : Int) : Nat :=
  if x < 0 then ((len : Int) + x).toNat else min x.toNat len

/-- JavaScript `arr.slice(start, stop)`. -/
def jsSlice {α : Type} (l : List α) (start stop : Int) : List α :=
  let a := jsSliceIdx l.length start
  let b := jsSliceIdx l.length stop
  (l.drop a).take (b - a)

/-- Core of JavaScript `str.split(" ")` (literal single-space separator):
`cur` is the reversed current field. `"".split(" ")` is `[""]`. -/
def splitSpAux : List Char → List Char → List (List Char)
  | [], cur => [cur.reverse]
  | c :: cs, cur =>
    if c = ' ' then cur.reverse :: splitSpAux cs [] else splitSpAux cs (c :: cur)

/-- JavaScript `str.split(" ")` at the character-list level. -/
def splitSp (s : List Char) : List (List Char) := splitSpAux s []

/-- Core of JavaScript `arr.join(" ")`. -/
def joinSp : List (List Char) → List Char
  | [] => []
  | [w] => w
  | w :: x :: rest => w ++ ' ' :: joinSp (x :: rest)

/-- JavaScript `text.split(" ")` producing strings. -/
def jsSplit (s : String) : List String := (splitSp s.data).map String.mk

/-- JavaScript `words.join(" ")`. -/
def jsJoin (l : List String) : String := ⟨joinSp (l.map String.data)⟩

theorem splitSpAux_ne_nil (cs cur : List Char) : splitSpAux cs cur ≠ [] := by
  induction cs generalizing cur with
  | nil => simp [splitSpAux]
  | cons c cs ih =>
    by_cases h : c = ' ' <;> simp [splitSpAux, h, ih]

theorem joinSp_cons_of_ne_nil (w : List Char) (l : List (List Char)) (h : l ≠ []) :
    joinSp (w :: l) = w ++ ' ' :: joinSp l := by
  cases l with
  | nil => exact absurd rfl h
  | cons x rest => rfl

theorem joinSp_splitSpAux (cs cur : List Char) :
    joinSp (splitSpAux cs cur) = cur.reverse ++ cs := by
  induction cs generalizing cur with
  | nil => simp [splitSpAux, joinSp]
  | cons c cs ih =>
    by_cases h : c = ' '
    · rw [splitSpAux, if_pos h,
        joinSp_cons_of_ne_nil _ _ (splitSpAux_ne_nil cs []), ih]
      simp [h]
    · rw [splitSpAux, if_neg h, ih]
      simp

/-- `words.join(" ")` inverts `text.split(" ")`: the JS round trip. -/
theorem jsJoin_jsSplit (s : String) : jsJoin (jsSplit s) = s := by
  apply String.ext
  show joinSp (((splitSp s.data).map String.mk).map String.data) = s.data
  rw [List.map_map]
  rw [show String.data ∘ String.mk = id from rfl, List.map_id]
  simpa [splitSp] using joinSp_splitSpAux s.data []

theorem splitSp_ne_nil (s : List Char) : splitSp s ≠ [] := splitSpAux_ne_nil s []

theorem jsSplit_ne_nil (s : String) : jsSplit s ≠ [] := by
  simp [jsSplit, splitSp_ne_nil]

/-- For a nonnegative window `[a, a+b)`, the JS slice is drop-then-take. -/
theorem jsSlice_nat (l : List α) (a b : Nat) :
    jsSlice l (a : Int) ((a : Int) + (b : Int)) = (l.drop a).take b := by
  unfold jsSlice jsSliceIdx
  have h1 : ¬ ((a : Int) < 0) := by omega
  have h2 : ¬ ((a : Int) + (b : Int) < 0) := by omega
  simp only [h1, if_false, h2]
  have ha : ((a : Int)).toNat = a := Int.toNat_natCast a
  have hab : ((a : Int) + (b : Int)).toNat = a + b := by
    rw [← Int.natCast_add, Int.toNat_natCast]
  rw [ha, hab]
  by_cases hc : a + b ≤ l.length
  · have hc' : a ≤ l.length := by omega
    rw [min_eq_left hc', min_eq_left hc]
    congr 1
    omega
  · by_cases hd : a ≤ l.length
    · rw [min_eq_left hd, min_eq_right (by omega : l.length ≤ a + b)]
      have hlen : (l.drop a).length = l.length - a := List.length_drop a l
      rw [List.take_of_length_le (by omega), List.take_of_length_le (by omega)]
    · rw [min_eq_right (by omega : l.length ≤ a),
        min_eq_right (by omega : l.length ≤ a + b)]
      simp [List.drop_of_length_le (by omega : l.length ≤ a)]

/-! ## Word-window segmenter

Embeds `createTextChunks(textContent, wordsPerChunk, overlapWords)` from
`src/index.js` (word variant, lines 422-441); `chunkText` in
`src/unnamed/part_000` and `src/unnamed/part_001` is the same loop
producing only the `id` and `text` fields. -/

/-- One chunk produced by the word-window segmenter. -/
structure WordChunk where
  id : String
  text : String
  wordCount : Nat
  startPosition : Int
deriving Repr, DecidableEq

/-- The `for (let startIndex = 0; startIndex < wordsArray.length;
startIndex += wordsPerChunk - overlapWords)` loop, with explicit fuel:
`none` means the loop did not finish within `fuel` iterations. -/
def wordChunkLoop (wordsArray : List String) (wordsPerChunk overlapWords : Int)
    (startIndex : Int) (acc : List WordChunk) : Nat → Option (List WordChunk)
  | 0 => none
  | fuel + 1 =>
    if startIndex < (wordsArray.length : Int) then
      let chunkWords := jsSlice wordsArray startIndex (startIndex + wordsPerChunk)
      wordChunkLoop wordsArray wordsPerChunk overlapWords
        (startIndex + (wordsPerChunk - overlapWords))
        (acc ++ [{ id := "chunk_" ++ toString acc.length,
                   text := jsJoin chunkWords,
                   wordCount := chunkWords.length,
                   startPosition := startIndex }]) fuel
    else some acc

/-- `createTextChunks` (word variant): split on single spaces, then run the
window loop.  The fuel `wordsArray.length + 1` is sufficient whenever the
JavaScript loop terminates (step ≥ 1), since the loop index strictly
increases and is bounded by the word count. -/
def createTextChunksWord (textContent : String)
    (wordsPerChunk overlapWords : Int) : Option (List WordChunk) :=
  let wordsArray := jsSplit textContent
  wordChunkLoop wordsArray wordsPerChunk overlapWords 0 [] (wordsArray.length + 1)

/-- Reference form of the word-window chunk list: `n` is the id counter,
`i` the current start index, `s1 + 1` the window step. -/
def wordChunksSpec (ws : List String) (wSize s1 : Nat) (n i : Nat) : List WordChunk :=
  if i < ws.length then
    { id := "chunk_" ++ toString n,
      text := jsJoin ((ws.drop i).take wSize),
      wordCount := ((ws.drop i).take wSize).length,
      startPosition := (i : Int) } ::
    wordChunksSpec ws wSize s1 (n + 1) (i + s1 + 1)
  else []
termination_by ws.length - i
decreasing_by omega

theorem wordChunkLoop_eq_spec (ws : List String) (wSize o : Nat) (ho : o < wSize) :
    ∀ (fuel i : Nat) (acc : List WordChunk), ws.length - i < fuel →
      wordChunkLoop ws (wSize : Int) (o : Int) (i : Int) acc fuel =
        some (acc ++ wordChunksSpec ws wSize (wSize - o - 1) acc.length i) := by
  intro fuel
  induction fuel with
  | zero => intro i acc h; omega
  | succ fuel ih =>
    intro i acc h
    rw [wordChunkLoop, wordChunksSpec]
    by_cases hi : i < ws.length
    · rw [if_pos (by exact_mod_cast hi), if_pos hi]
      have hstep : (i : Int) + ((wSize : Int) - (o : Int)) =
          ((i + (wSize - o - 1) + 1 : Nat) : Int) := by
        push_cast
        omega
      have hslice : jsSlice ws (i : Int) ((i : Int) + (wSize : Int)) =
          (ws.drop i).take wSize := jsSlice_nat ws i wSize
      rw [hslice, hstep, ih (i + (wSize - o - 1) + 1) _ (by omega)]
      simp
    · rw [if_neg (by exact_mod_cast hi), if_neg hi]
      simp

/-- Element `k` of the reference chunk list. -/
theorem wordChunksSpec_get (ws : List String) (wSize s1 : Nat) :
    ∀ (n i k : Nat) (hk : k < (wordChunksSpec ws wSize s1 n i).length),
      (wordChunksSpec ws wSize s1 n i).get ⟨k, hk⟩ =
        { id := "chunk_" ++ toString (n + k),
          text := jsJoin ((ws.drop (i + k * (s1 + 1))).take wSize),
          wordCount := ((ws.drop (i + k * (s1 + 1))).take wSize).length,
          startPosition := ((i + k * (s1 + 1) : Nat) : Int) } := by
  intro n i
  induction n, i using wordChunksSpec.induct ws wSize s1 with
  | case1 n i hi ih =>
    have hcons : wordChunksSpec ws wSize s1 n i =
        { id := "chunk_" ++ toString n,
          text := jsJoin ((ws.drop i).take wSize),
          wordCount := ((ws.drop i).take wSize).length,
          startPosition := (i : Int) } ::
        wordChunksSpec ws wSize s1 (n + 1) (i + s1 + 1) := by
      rw [wordChunksSpec.eq_def, if_pos hi]
    intro k hk
    rw [List.get_of_eq hcons]
    cases k with
    | zero => simp
    | succ k =>
      have hlen : (wordChunksSpec ws wSize s1 n i).length =
          (wordChunksSpec ws wSize s1 (n + 1) (i + s1 + 1)).length + 1 := by
        rw [hcons]; simp
      have hk' : k < (wordChunksSpec ws wSize s1 (n + 1) (i + s1 + 1)).length := by
        omega
      rw [List.get_cons_succ (h := by simpa using hk'), ih k hk']
      have h1 : n + 1 + k = n + (k + 1) := by omega
      have h2 : i + s1 + 1 + k * (s1 + 1) = i + (k + 1) * (s1 + 1) := by ring_nf
      rw [h1, h2]
  | case2 n i hi =>
    intro k hk
    rw [wordChunksSpec.eq_def, if_neg hi] at hk
    simp at hk

theorem wordChunksSpec_ne_nil (ws : List String) (wSize s1 n i : Nat)
    (hi : i < ws.length) : wordChunksSpec ws wSize s1 n i ≠ [] := by
  rw [wordChunksSpec.eq_def, if_pos hi]
  simp

/-- Concatenating, for every non-last chunk, the first `s1 + 1` words of its
window, and for the last chunk its full window, recovers the words from
position `i` on. -/
theorem wordChunksSpec_reconstruct (ws : List String) (wSize s1 : Nat)
    (hW : s1 + 1 ≤ wSize) :
    ∀ (n i : Nat),
      ((List.range (wordChunksSpec ws wSize s1 n i).length).map (fun k =>
        if k + 1 = (wordChunksSpec ws wSize s1 n i).length
        then (ws.drop (i + k * (s1 + 1))).take wSize
        else ((ws.drop (i + k * (s1 + 1))).take wSize).take (s1 + 1))).flatten =
      ws.drop i := by
  intro n i
  induction n, i using wordChunksSpec.induct ws wSize s1 with
  | case1 n i hi ih =>
    have hcons : wordChunksSpec ws wSize s1 n i =
        { id := "chunk_" ++ toString n,
          text := jsJoin ((ws.drop i).take wSize),
          wordCount := ((ws.drop i).take wSize).length,
          startPosition := (i : Int) } ::
        wordChunksSpec ws wSize s1 (n + 1) (i + s1 + 1) := by
      rw [wordChunksSpec.eq_def, if_pos hi]
    rw [hcons]
    simp only [List.length_cons]
    set rest := wordChunksSpec ws wSize s1 (n + 1) (i + s1 + 1) with hrest
    clear_value rest
    cases rest with
    | nil =>
      have hout : ¬ (i + s1 + 1 < ws.length) := by
        intro hcontra
        exact wordChunksSpec_ne_nil ws wSize s1 (n + 1) (i + s1 + 1) hcontra
          hrest.symm
      simp only [List.length_nil, Nat.zero_add, List.range_succ,
        List.range_zero, List.nil_append, List.map_cons, List.map_nil,
        Nat.zero_mul, Nat.add_zero, if_pos rfl, List.flatten]
      rw [List.take_of_length_le (by
        rw [List.length_drop]
        omega)]
      simp
    | cons c0 rs =>
      simp only [List.length_cons] at ih ⊢
      rw [List.range_succ_eq_map, List.map_cons, List.map_map, List.flatten_cons]
      have hne : ¬ ((0 : Nat) + 1 = rs.length + 1 + 1) := by omega
      rw [if_neg hne]
      have hshift : ((List.range (rs.length + 1)).map
          ((fun k => if k + 1 = rs.length + 1 + 1
            then (ws.drop (i + k * (s1 + 1))).take wSize
            else ((ws.drop (i + k * (s1 + 1))).take wSize).take (s1 + 1)) ∘
              Nat.succ)) =
          (List.range (rs.length + 1)).map (fun k =>
            if k + 1 = rs.length + 1
            then (ws.drop ((i + s1 + 1) + k * (s1 + 1))).take wSize
            else ((ws.drop ((i + s1 + 1) + k * (s1 + 1))).take wSize).take
              (s1 + 1)) := by
        apply List.map_congr_left
        intro k _
        have harith : i + (k + 1) * (s1 + 1) = i + s1 + 1 + k * (s1 + 1) := by
          ring_nf
        simp only [Function.comp_apply, Nat.succ_eq_add_one, harith]
        by_cases hk : k + 1 = rs.length + 1 <;> simp [hk]
      rw [hshift, ih]
      have htt : ((ws.drop i).take wSize).take (s1 + 1) =
          (ws.drop i).take (s1 + 1) := by
        rw [List.take_take, min_eq_left hW]
      simp only [Nat.zero_mul, Nat.add_zero]
      rw [htt]
      have hdd : ws.drop (i + s1 + 1) = (ws.drop i).drop (s1 + 1) := by
        rw [List.drop_drop]
        try congr 1
        try omega
      rw [hdd, List.take_append_drop]
  | case2 n i hi =>
    rw [wordChunksSpec.eq_def, if_neg hi]
    simp only [List.length_nil, List.range_zero, List.map_nil, List.flatten_nil]
    rw [List.drop_of_length_le (by omega)]

/-- C1: for `0 ≤ o < W`, the word-window segmenter emits chunks of at most
`W` words, the trailing partial window is emitted, each chunk's text is the
join of its `W`-word window starting at word `k·(W−o)`, and joining the
non-overlapping portions (the first `W−o` words of every non-last chunk and
the full window of the last chunk) reconstructs `t` word-for-word. -/
theorem wordWindow_segmentation_correct (t : String) (wSize o : Nat)
    (ho : o < wSize) :
    ∃ cs : List WordChunk,
      createTextChunksWord t (wSize : Int) (o : Int) = some cs ∧
      cs ≠ [] ∧
      (∀ (k : Nat) (hk : k < cs.length),
        (cs.get ⟨k, hk⟩).text =
          jsJoin (((jsSplit t).drop (k * (wSize - o))).take wSize) ∧
        (cs.get ⟨k, hk⟩).wordCount ≤ wSize ∧
        (cs.get ⟨k, hk⟩).startPosition = ((k * (wSize - o) : Nat) : Int)) ∧
      jsJoin (((List.range cs.length).map (fun k =>
        if k + 1 = cs.length
        then ((jsSplit t).drop (k * (wSize - o))).take wSize
        else (((jsSplit t).drop (k * (wSize - o))).take wSize).take
          (wSize - o))).flatten) = t := by
  set ws := jsSplit t with hws
  have hstep : wSize - o - 1 + 1 = wSize - o := by omega
  have hrun : createTextChunksWord t (wSize : Int) (o : Int) =
      some (wordChunksSpec ws wSize (wSize - o - 1) 0 0) := by
    show wordChunkLoop ws (wSize : Int) (o : Int) ((0 : Nat) : Int) []
        (ws.length + 1) = _
    rw [wordChunkLoop_eq_spec ws wSize o ho (ws.length + 1) 0 [] (by omega)]
    simp
  refine ⟨wordChunksSpec ws wSize (wSize - o - 1) 0 0, hrun, ?_, ?_, ?_⟩
  · apply wordChunksSpec_ne_nil
    have := jsSplit_ne_nil t
    cases hcase : ws with
    | nil => exact absurd hcase this
    | cons a l => simp [hcase]
  · intro k hk
    have hget := wordChunksSpec_get ws wSize (wSize - o - 1) 0 0 k hk
    rw [hget]
    refine ⟨by rw [hstep]; simp, ?_, by rw [hstep]; simp⟩
    simp only
    rw [List.length_take]
    omega
  · have hrec := wordChunksSpec_reconstruct ws wSize (wSize - o - 1)
      (by omega) 0 0
    simp only [Nat.zero_add, List.drop_zero] at hrec
    rw [hstep] at hrec
    rw [hrec]
    exact jsJoin_jsSplit t

/-- Witness for C1 at `t = "a b c"`, `W = 2`, `o = 1`. -/
theorem wordWindow_segmentation_correct_witness :
    ∃ cs : List WordChunk,
      createTextChunksWord "a b c" ((2 : Nat) : Int) ((1 : Nat) : Int) =
        some cs ∧
      cs ≠ [] ∧
      (∀ (k : Nat) (hk : k < cs.length),
        (cs.get ⟨k, hk⟩).text =
          jsJoin (((jsSplit "a b c").drop (k * (2 - 1))).take 2) ∧
        (cs.get ⟨k, hk⟩).wordCount ≤ 2 ∧
        (cs.get ⟨k, hk⟩).startPosition = ((k * (2 - 1) : Nat) : Int)) ∧
      jsJoin (((List.range cs.length).map (fun k =>
        if k + 1 = cs.length
        then ((jsSplit "a b c").drop (k * (2 - 1))).take 2
        else (((jsSplit "a b c").drop (k * (2 - 1))).take 2).take
          (2 - 1))).flatten) = "a b c" :=
  wordWindow_segmentation_correct "a b c" 2 1 (by decide)

/-! ## Degenerate word-window policy: `overlap >= wordsPerChunk`

The source has no validity check on the policy: with
`overlapWords = wordsPerChunk` the loop increment
`wordsPerChunk - overlapWords` is `0`, so the `for` loop re-runs forever
from `startIndex = 0` and never returns nor throws. -/

theorem wordChunkLoop_zero_step_stuck (ws : List String) (h : ws ≠ [])
    (wSize : Int) :
    ∀ (fuel : Nat) (acc : List WordChunk),
      wordChunkLoop ws wSize wSize 0 acc fuel = none := by
  intro fuel
  induction fuel with
  | zero => intro acc; rfl
  | succ fuel ih =>
    intro acc
    rw [wordChunkLoop]
    have hlen : (0 : Int) < (ws.length : Int) := by
      have : 0 < ws.length := List.length_pos.mpr h
      exact_mod_cast this
    rw [if_pos hlen]
    have hz : (0 : Int) + (wSize - wSize) = 0 := by ring
    rw [hz]
    exact ih _

/-- C2: with `overlap = W` (an invalid policy, `overlap ≥ W`) the
word-window segmenter does not fail with a configuration error: it never
terminates at all.  At the concrete input `"a b"`, `W = 2`, `o = 2`,
the loop returns no result for any amount of fuel, and the top-level
segmenter runs out of fuel (`none`), whereas the specification requires a
fatal configuration error. -/
theorem chunkText_overlap_eq_window_diverges :
    (∀ (fuel : Nat) (acc : List WordChunk),
      wordChunkLoop (jsSplit "a b") 2 2 0 acc fuel = none) ∧
    createTextChunksWord "a b" 2 2 = none := by
  have h := wordChunkLoop_zero_step_stuck (jsSplit "a b")
    (jsSplit_ne_nil "a b") 2
  exact ⟨h, h _ _⟩

/-! ## Character-window segmenter

Embeds `createTextChunks(textContent, chunkSize)` from `src/index.js`
(character variant, lines 49-78): a `while` loop advancing `position` by
exactly `chunkSize` characters, no overlap. -/

/-- One chunk produced by the character-window segmenter. -/
structure CharChunk where
  id : String
  text : String
  wordCount : Nat
  startPosition : Int
  charCount : Nat
deriving Repr, DecidableEq

/-- The `while (position < textContent.length)` loop with explicit fuel. -/
def charChunkLoop (textContent : List Char) (chunkSize : Nat)
    (position : Nat) (acc : List CharChunk) : Nat → Option (List CharChunk)
  | 0 => none
  | fuel + 1 =>
    if position < textContent.length then
      let chunkT := jsSlice textContent (position : Int)
        ((position : Int) + (chunkSize : Int))
      charChunkLoop textContent chunkSize (position + chunkSize)
        (acc ++ [{ id := "chunk_" ++ toString acc.length,
                   text := ⟨chunkT⟩,
                   wordCount := (splitSp chunkT).length,
                   startPosition := (position : Int),
                   charCount := chunkT.length }]) fuel
    else some acc

/-- `createTextChunks` (character variant).  Fuel `length + 1` covers every
terminating run (the position strictly increases when `chunkSize ≥ 1`). -/
def createTextChunksChar (textContent : String) (chunkSize : Nat) :
    Option (List CharChunk) :=
  charChunkLoop textContent.data chunkSize 0 [] (textContent.data.length + 1)

/-- Reference form of the character-window chunk list (`s1 + 1` is the
advance). -/
def charChunksSpec (tc : List Char) (s1 : Nat) (n i : Nat) : List CharChunk :=
  if i < tc.length then
    { id := "chunk_" ++ toString n,
      text := ⟨(tc.drop i).take (s1 + 1)⟩,
      wordCount := (splitSp ((tc.drop i).take (s1 + 1))).length,
      startPosition := (i : Int),
      charCount := ((tc.drop i).take (s1 + 1)).length } ::
    charChunksSpec tc s1 (n + 1) (i + s1 + 1)
  else []
termination_by tc.length - i
decreasing_by omega

theorem charChunkLoop_eq_spec (tc : List Char) (cSize : Nat)
    (hc : 0 < cSize) :
    ∀ (fuel i : Nat) (acc : List CharChunk), tc.length - i < fuel →
      charChunkLoop tc cSize i acc fuel =
        some (acc ++ charChunksSpec tc (cSize - 1) acc.length i) := by
  intro fuel
  induction fuel with
  | zero => intro i acc h; omega
  | succ fuel ih =>
    intro i acc h
    rw [charChunkLoop, charChunksSpec]
    by_cases hi : i < tc.length
    · rw [if_pos hi, if_pos hi]
      have hs : cSize - 1 + 1 = cSize := by omega
      have hslice : jsSlice tc (i : Int) ((i : Int) + (cSize : Int)) =
          (tc.drop i).take cSize := jsSlice_nat tc i cSize
      rw [hslice, hs]
      have hnext : i + cSize = i + (cSize - 1) + 1 := by omega
      rw [hnext, ih (i + (cSize - 1) + 1) _ (by omega)]
      simp
    · rw [if_neg hi, if_neg hi]
      simp

theorem charChunksSpec_ne_nil (tc : List Char) (s1 n i : Nat)
    (hi : i < tc.length) : charChunksSpec tc s1 n i ≠ [] := by
  rw [charChunksSpec.eq_def, if_pos hi]
  simp

/-- Element `k` of the reference character chunk list. -/
theorem charChunksSpec_get (tc : List Char) (s1 : Nat) :
    ∀ (n i k : Nat) (hk : k < (charChunksSpec tc s1 n i).length),
      (charChunksSpec tc s1 n i).get ⟨k, hk⟩ =
        { id := "chunk_" ++ toString (n + k),
          text := ⟨(tc.drop (i + k * (s1 + 1))).take (s1 + 1)⟩,
          wordCount :=
            (splitSp ((tc.drop (i + k * (s1 + 1))).take (s1 + 1))).length,
          startPosition := ((i + k * (s1 + 1) : Nat) : Int),
          charCount := ((tc.drop (i + k * (s1 + 1))).take (s1 + 1)).length } := by
  intro n i
  induction n, i using charChunksSpec.induct tc s1 with
  | case1 n i hi ih =>
    have hcons : charChunksSpec tc s1 n i =
        { id := "chunk_" ++ toString n,
          text := ⟨(tc.drop i).take (s1 + 1)⟩,
          wordCount := (splitSp ((tc.drop i).take (s1 + 1))).length,
          startPosition := (i : Int),
          charCount := ((tc.drop i).take (s1 + 1)).length } ::
        charChunksSpec tc s1 (n + 1) (i + s1 + 1) := by
      rw [charChunksSpec.eq_def, if_pos hi]
    intro k hk
    rw [List.get_of_eq hcons]
    cases k with
    | zero => simp
    | succ k =>
      have hlen : (charChunksSpec tc s1 n i).length =
          (charChunksSpec tc s1 (n + 1) (i + s1 + 1)).length + 1 := by
        rw [hcons]; simp
      have hk' : k < (charChunksSpec tc s1 (n + 1) (i + s1 + 1)).length := by
        omega
      rw [List.get_cons_succ (h := by simpa using hk'), ih k hk']
      have h1 : n + 1 + k = n + (k + 1) := by omega
      have h2 : i + s1 + 1 + k * (s1 + 1) = i + (k + 1) * (s1 + 1) := by ring_nf
      rw [h1, h2]
  | case2 n i hi =>
    intro k hk
    rw [charChunksSpec.eq_def, if_neg hi] at hk
    simp at hk

/-- Concatenating the texts of the character chunks recovers the characters
from position `i` on. -/
theorem charChunksSpec_concat (tc : List Char) (s1 : Nat) :
    ∀ (n i : Nat),
      ((charChunksSpec tc s1 n i).map (fun c => c.text.data)).flatten =
        tc.drop i := by
  intro n i
  induction n, i using charChunksSpec.induct tc s1 with
  | case1 n i hi ih =>
    rw [charChunksSpec.eq_def, if_pos hi]
    rw [List.map_cons, List.flatten_cons, ih]
    show (tc.drop i).take (s1 + 1) ++ tc.drop (i + s1 + 1) = tc.drop i
    have hdd : tc.drop (i + s1 + 1) = (tc.drop i).drop (s1 + 1) := by
      rw [List.drop_drop]
      try congr 1
      try omega
    rw [hdd, List.take_append_drop]
  | case2 n i hi =>
    rw [charChunksSpec.eq_def, if_neg hi]
    simp only [List.map_nil, List.flatten_nil]
    rw [List.drop_of_length_le (by omega)]

theorem mk_data_eq (s : String) : String.mk s.data = s := rfl

/-- With `chunkSize = 0` the character `while` loop never advances
(`position += 0`), so on any nonempty text it never terminates. -/
theorem charChunkLoop_zero_size_stuck (tc : List Char) (h : tc ≠ []) :
    ∀ (fuel : Nat) (acc : List CharChunk),
      charChunkLoop tc 0 0 acc fuel = none := by
  intro fuel
  induction fuel with
  | zero => intro acc; rfl
  | succ fuel ih =>
    intro acc
    rw [charChunkLoop]
    rw [if_pos (List.length_pos.mpr h)]
    exact ih _

/-- Counterexample to C6 as stated: at chunk size `W = 0` (a value the
claim's universal quantification admits) the character segmenter produces
no chunk list at all on `"a"` — the loop never terminates — so no
concatenation of chunk texts can reconstruct the input. -/
theorem charWindow_zero_size_counterexample :
    ¬ ∃ cs : List CharChunk,
      createTextChunksChar "a" 0 = some cs ∧
      String.mk ((cs.map (fun c => c.text.data)).flatten) = "a" := by
  rintro ⟨cs, hcs, -⟩
  have hnone : createTextChunksChar "a" 0 = none :=
    charChunkLoop_zero_size_stuck "a".data (by decide) _ _
  rw [hnone] at hcs
  cases hcs

/-- C6 (amended, `W ≥ 1`): the character-window segmenter advances by
exactly `W` characters with no overlap — chunk `k` starts at character
offset `k·W` and its text is exactly the next (at most) `W` characters —
and the concatenation of all chunk texts in emission order equals `t`. -/
theorem charWindow_segmentation_correct (t : String) (cSize : Nat)
    (hc : 0 < cSize) :
    ∃ cs : List CharChunk,
      createTextChunksChar t cSize = some cs ∧
      (∀ (k : Nat) (hk : k < cs.length),
        (cs.get ⟨k, hk⟩).startPosition = ((k * cSize : Nat) : Int) ∧
        (cs.get ⟨k, hk⟩).text =
          String.mk ((t.data.drop (k * cSize)).take cSize) ∧
        (cs.get ⟨k, hk⟩).charCount ≤ cSize) ∧
      String.mk ((cs.map (fun c => c.text.data)).flatten) = t := by
  have hs : cSize - 1 + 1 = cSize := by omega
  have hrun : createTextChunksChar t cSize =
      some (charChunksSpec t.data (cSize - 1) 0 0) := by
    show charChunkLoop t.data cSize 0 [] (t.data.length + 1) = _
    rw [charChunkLoop_eq_spec t.data cSize hc (t.data.length + 1) 0 []
      (by omega)]
    simp
  refine ⟨charChunksSpec t.data (cSize - 1) 0 0, hrun, ?_, ?_⟩
  · intro k hk
    have hget := charChunksSpec_get t.data (cSize - 1) 0 0 k hk
    rw [hget]
    refine ⟨by rw [hs]; simp, by rw [hs]; simp, ?_⟩
    simp only
    rw [hs, List.length_take]
    omega
  · have hconcat := charChunksSpec_concat t.data (cSize - 1) 0 0
    rw [List.drop_zero] at hconcat
    rw [hconcat]

/-- Witness for C6 (amended) at `t = "abc"`, `W = 2`. -/
theorem charWindow_segmentation_correct_witness :
    ∃ cs : List CharChunk,
      createTextChunksChar "abc" 2 = some cs ∧
      (∀ (k : Nat) (hk : k < cs.length),
        (cs.get ⟨k, hk⟩).startPosition = ((k * 2 : Nat) : Int) ∧
        (cs.get ⟨k, hk⟩).text =
          String.mk (("abc".data.drop (k * 2)).take 2) ∧
        (cs.get ⟨k, hk⟩).charCount ≤ 2) ∧
      String.mk ((cs.map (fun c => c.text.data)).flatten) = "abc" :=
  charWindow_segmentation_correct "abc" 2 (by decide)

/-- Counterexample to C5 as stated: the word-window segmenter turns the
empty string into ONE chunk with empty text (because `"".split(" ")` is
`[""]`), not zero chunks; and with overlap `o > 0` a nonempty text shorter
than one window (4 words, window 5) can still produce TWO chunks, because
the loop advances by `W − o` and re-enters while words remain. -/
theorem boundary_counterexample :
    createTextChunksWord "" 500 50 =
      some [{ id := "chunk_0", text := "", wordCount := 1,
              startPosition := 0 }] ∧
    (createTextChunksWord "a b c d" 5 2).map List.length = some 2 := by
  refine ⟨by decide, by decide⟩

/-- C5 (amended): the empty string yields zero chunks under the character
segmenter but one empty-text chunk under the word segmenter; a text of at
most `W` characters (nonempty) is one whole chunk under the character
segmenter, and a text of at most `W − o` words is one whole chunk under
the word segmenter. -/
theorem boundary_single_window_chunks :
    (∀ cSize : Nat, createTextChunksChar "" cSize = some []) ∧
    (∀ (t : String) (cSize : Nat), 0 < t.data.length →
      t.data.length ≤ cSize →
      createTextChunksChar t cSize =
        some [{ id := "chunk_0", text := t,
                wordCount := (splitSp t.data).length, startPosition := 0,
                charCount := t.data.length }]) ∧
    createTextChunksWord "" 500 50 =
      some [{ id := "chunk_0", text := "", wordCount := 1,
              startPosition := 0 }] ∧
    (∀ (t : String) (wSize o : Nat), o < wSize →
      (jsSplit t).length ≤ wSize - o →
      createTextChunksWord t (wSize : Int) (o : Int) =
        some [{ id := "chunk_0", text := t,
                wordCount := (jsSplit t).length, startPosition := 0 }]) := by
  refine ⟨fun cSize => rfl, ?_, by decide, ?_⟩
  · intro t cSize hpos hle
    have hc : 0 < cSize := by omega
    have hrun : createTextChunksChar t cSize =
        some (charChunksSpec t.data (cSize - 1) 0 0) := by
      show charChunkLoop t.data cSize 0 [] (t.data.length + 1) = _
      rw [charChunkLoop_eq_spec t.data cSize hc (t.data.length + 1) 0 []
        (by omega)]
      simp
    rw [hrun]
    rw [charChunksSpec.eq_def, if_pos hpos]
    rw [charChunksSpec.eq_def,
      if_neg (by omega : ¬ (0 + (cSize - 1) + 1 < t.data.length))]
    have htake : (t.data.drop 0).take (cSize - 1 + 1) = t.data := by
      rw [List.drop_zero]
      exact List.take_of_length_le (by omega)
    rw [htake]
    simp [mk_data_eq, show "chunk_" ++ toString 0 = "chunk_0" from rfl]
  · intro t wSize o ho hle
    have hrun : createTextChunksWord t (wSize : Int) (o : Int) =
        some (wordChunksSpec (jsSplit t) wSize (wSize - o - 1) 0 0) := by
      show wordChunkLoop (jsSplit t) (wSize : Int) (o : Int) ((0 : Nat) : Int)
          [] ((jsSplit t).length + 1) = _
      rw [wordChunkLoop_eq_spec (jsSplit t) wSize o ho ((jsSplit t).length + 1)
        0 [] (by omega)]
      simp
    have hpos : 0 < (jsSplit t).length :=
      List.length_pos.mpr (jsSplit_ne_nil t)
    rw [hrun]
    rw [wordChunksSpec.eq_def, if_pos hpos]
    rw [wordChunksSpec.eq_def,
      if_neg (by omega : ¬ (0 + (wSize - o - 1) + 1 < (jsSplit t).length))]
    have htake : ((jsSplit t).drop 0).take wSize = jsSplit t := by
      rw [List.drop_zero]
      exact List.take_of_length_le (by omega)
    rw [htake]
    simp [jsJoin_jsSplit, show "chunk_" ++ toString 0 = "chunk_0" from rfl]

/-- Witness for C5 (amended): a 2-character text with window 5 (character
variant) and a 2-word text with window 3, overlap 1 (word variant), each
yield exactly one chunk equal to the whole input. -/
theorem boundary_single_window_chunks_witness :
    createTextChunksChar "ab" 5 =
      some [{ id := "chunk_0", text := "ab",
              wordCount := (splitSp "ab".data).length, startPosition := 0,
              charCount := "ab".data.length }] ∧
    createTextChunksWord "a b" ((3 : Nat) : Int) ((1 : Nat) : Int) =
      some [{ id := "chunk_0", text := "a b",
              wordCount := (jsSplit "a b").length, startPosition := 0 }] :=
  ⟨boundary_single_window_chunks.2.1 "ab" 5 (by decide) (by decide),
   boundary_single_window_chunks.2.2.2 "a b" 3 1 (by decide) (by decide)⟩

/-! ## Whitespace normalization

Embeds the pure core of `loadAndCleanTextFile` (`src/index.js` lines 32-43)
and `loadAndCleanText` (`src/unnamed/part_000`, `src/unnamed/part_001`):
`rawTextContent.replace(/\s+/g, " ").trim()`. -/

/-- The character class `\s` of JavaScript regular expressions. -/
def isJsWhitespace (c : Char) : Bool :=
  c.toNat = 0x20 || c.toNat = 0x09 || c.toNat = 0x0a || c.toNat = 0x0b ||
  c.toNat = 0x0c || c.toNat = 0x0d || c.toNat = 0xa0 || c.toNat = 0x1680 ||
  (0x2000 ≤ c.toNat && c.toNat ≤ 0x200a) || c.toNat = 0x2028 ||
  c.toNat = 0x2029 || c.toNat = 0x202f || c.toNat = 0x205f ||
  c.toNat = 0x3000 || c.toNat = 0xfeff

/-- `replace(/\s+/g, " ")`, written as a left-to-right scan: `prevWs`
records whether the previous character belonged to a whitespace run, so
each maximal run emits exactly one `' '`. -/
def collapseWsAux (prevWs : Bool) : List Char → List Char
  | [] => []
  | c :: cs =>
    if isJsWhitespace c then
      if prevWs then collapseWsAux true cs
      else ' ' :: collapseWsAux true cs
    else c :: collapseWsAux false cs

/-- `raw.replace(/\s+/g, " ")`. -/
def collapseWs (l : List Char) : List Char := collapseWsAux false l

/-- JavaScript `.trim()` (strips `\s` from both ends). -/
def jsTrim (l : List Char) : List Char :=
  ((l.dropWhile isJsWhitespace).reverse.dropWhile isJsWhitespace).reverse

/-- Pure core of `loadAndCleanTextFile` / `loadAndCleanText`:
`raw.replace(/\s+/g, " ").trim()`. -/
def cleanRawText (raw : String) : String := ⟨jsTrim (collapseWs raw.data)⟩

/-- Adjacent characters are never both whitespace. -/
def WsSeparated (l : List Char) : Prop :=
  l.Chain' (fun a b => ¬ (isJsWhitespace a = true ∧ isJsWhitespace b = true))

theorem collapseWsAux_ws_eq_space :
    ∀ (l : List Char) (b : Bool), ∀ c ∈ collapseWsAux b l,
      isJsWhitespace c = true → c = ' ' := by
  intro l
  induction l with
  | nil => simp [collapseWsAux]
  | cons c cs ih =>
    intro b d hd hws
    rw [collapseWsAux] at hd
    by_cases h : isJsWhitespace c
    · rw [if_pos h] at hd
      cases b with
      | true =>
        rw [if_pos rfl] at hd
        exact ih true d hd hws
      | false =>
        rw [if_neg (by simp)] at hd
        rcases List.mem_cons.mp hd with h1 | h2
        · exact h1
        · exact ih true d h2 hws
    · rw [if_neg h] at hd
      rcases List.mem_cons.mp hd with h1 | h2
      · exact absurd (h1 ▸ hws) h
      · exact ih false d h2 hws

theorem collapseWsAux_spec :
    ∀ l : List Char,
      WsSeparated (collapseWsAux false l) ∧
      WsSeparated (collapseWsAux true l) ∧
      (∀ c, (collapseWsAux true l).head? = some c →
        isJsWhitespace c = false) := by
  intro l
  induction l with
  | nil => refine ⟨List.chain'_nil, List.chain'_nil, by simp [collapseWsAux]⟩
  | cons c cs ih =>
    obtain ⟨ihf, iht, ihh⟩ := ih
    by_cases h : isJsWhitespace c
    · have e1 : collapseWsAux false (c :: cs) = ' ' :: collapseWsAux true cs := by
        rw [collapseWsAux, if_pos h, if_neg (by simp)]
      have e2 : collapseWsAux true (c :: cs) = collapseWsAux true cs := by
        rw [collapseWsAux, if_pos h, if_pos rfl]
      refine ⟨?_, e2 ▸ iht, fun d hd => ihh d (e2 ▸ hd)⟩
      rw [e1, WsSeparated, List.chain'_cons']
      refine ⟨?_, iht⟩
      intro y hy
      have : isJsWhitespace y = false := ihh y hy
      simp [this]
    · have e1 : collapseWsAux false (c :: cs) = c :: collapseWsAux false cs := by
        rw [collapseWsAux, if_neg h]
      have e2 : collapseWsAux true (c :: cs) = c :: collapseWsAux false cs := by
        rw [collapseWsAux, if_neg h]
      have hchain : WsSeparated (c :: collapseWsAux false cs) := by
        rw [WsSeparated, List.chain'_cons']
        refine ⟨?_, ihf⟩
        intro y hy
        simp [h]
      refine ⟨e1 ▸ hchain, e2 ▸ hchain, ?_⟩
      intro d hd
      rw [e2, List.head?_cons, Option.some_inj] at hd
      rw [← hd]
      simpa using h

theorem wsSeparated_suffix {l s : List Char} (h : s <:+ l)
    (hl : WsSeparated l) : WsSeparated s := by
  obtain ⟨t, ht⟩ := h
  rw [← ht] at hl
  exact (List.chain'_append.mp hl).2.1

theorem wsSeparated_reverse {l : List Char} (h : WsSeparated l) :
    WsSeparated l.reverse := by
  rw [WsSeparated, List.chain'_reverse]
  exact h.imp (fun a b hab => by
    rintro ⟨h1, h2⟩
    exact hab ⟨h2, h1⟩)

theorem getLast?_dropWhile_of_ne_nil (p : Char → Bool) (m : List Char)
    (h : m.dropWhile p ≠ []) : (m.dropWhile p).getLast? = m.getLast? := by
  obtain ⟨t, ht⟩ := List.dropWhile_suffix (l := m) p
  conv_rhs => rw [← ht]
  rw [List.getLast?_append]
  cases hgb : (m.dropWhile p).getLast? with
  | none => exact absurd (List.getLast?_eq_none_iff.mp hgb) h
  | some d => rfl

/-- `jsTrim` of a separated list is separated and has non-whitespace first
and last characters. -/
theorem jsTrim_spec (l : List Char) (hl : WsSeparated l) :
    WsSeparated (jsTrim l) ∧
    (∀ c, (jsTrim l).head? = some c → isJsWhitespace c = false) ∧
    (∀ c, (jsTrim l).getLast? = some c → isJsWhitespace c = false) := by
  have hAsep : WsSeparated (l.dropWhile isJsWhitespace) :=
    wsSeparated_suffix (List.dropWhile_suffix _) hl
  have hBsep : WsSeparated
      ((l.dropWhile isJsWhitespace).reverse.dropWhile isJsWhitespace) :=
    wsSeparated_suffix (List.dropWhile_suffix _) (wsSeparated_reverse hAsep)
  have hAhead : ∀ c, (l.dropWhile isJsWhitespace).head? = some c →
      isJsWhitespace c = false := by
    intro c hc
    have := List.head?_dropWhile_not isJsWhitespace l
    rw [hc] at this
    exact this
  have hBhead : ∀ c,
      ((l.dropWhile isJsWhitespace).reverse.dropWhile isJsWhitespace).head? =
        some c → isJsWhitespace c = false := by
    intro c hc
    have := List.head?_dropWhile_not isJsWhitespace
      (l.dropWhile isJsWhitespace).reverse
    rw [hc] at this
    exact this
  refine ⟨wsSeparated_reverse hBsep, ?_, ?_⟩
  · intro c hc
    rw [jsTrim, List.head?_reverse] at hc
    have hBne : (l.dropWhile isJsWhitespace).reverse.dropWhile
        isJsWhitespace ≠ [] := by
      intro hemp
      rw [hemp] at hc
      simp at hc
    rw [getLast?_dropWhile_of_ne_nil _ _ hBne, List.getLast?_reverse] at hc
    exact hAhead c hc
  · intro c hc
    rw [jsTrim, List.getLast?_reverse] at hc
    exact hBhead c hc

theorem collapseWsAux_true_of_head_not (cs : List Char)
    (h : ∀ c, cs.head? = some c → isJsWhitespace c = false) :
    collapseWsAux true cs = collapseWsAux false cs := by
  cases cs with
  | nil => rfl
  | cons d ds =>
    have hd : isJsWhitespace d = false := h d rfl
    rw [collapseWsAux, collapseWsAux, if_neg (by simp [hd]),
      if_neg (by simp [hd])]

/-- `collapseWs` fixes any separated list whose whitespace is all `' '`. -/
theorem collapseWs_fixed :
    ∀ l : List Char, WsSeparated l →
      (∀ c ∈ l, isJsWhitespace c = true → c = ' ') → collapseWs l = l := by
  intro l
  induction l with
  | nil => intro _ _; rfl
  | cons c cs ih =>
    intro hsep hsp
    have hsep' : WsSeparated cs := List.Chain'.tail hsep
    have hsp' : ∀ c ∈ cs, isJsWhitespace c = true → c = ' ' :=
      fun d hd => hsp d (List.mem_cons_of_mem c hd)
    by_cases h : isJsWhitespace c
    · have hhead : ∀ d, cs.head? = some d → isJsWhitespace d = false := by
        intro d hd
        have hpair := (List.chain'_cons'.mp hsep).1 d hd
        by_cases hdd : isJsWhitespace d
        · exact absurd ⟨h, hdd⟩ hpair
        · simpa using hdd
      rw [collapseWs, collapseWsAux, if_pos h, if_neg (by simp),
        collapseWsAux_true_of_head_not cs hhead]
      rw [show collapseWsAux false cs = collapseWs cs from rfl, ih hsep' hsp']
      rw [hsp c (List.mem_cons_self c cs) h]
    · rw [collapseWs, collapseWsAux, if_neg h]
      rw [show collapseWsAux false cs = collapseWs cs from rfl, ih hsep' hsp']

theorem dropWhile_of_head_not {l : List Char}
    (h : ∀ c, l.head? = some c → isJsWhitespace c = false) :
    l.dropWhile isJsWhitespace = l := by
  cases l with
  | nil => rfl
  | cons c cs =>
    have := h c rfl
    rw [List.dropWhile_cons, this]
    simp

theorem mem_jsTrim {c : Char} {l : List Char} (h : c ∈ jsTrim l) : c ∈ l := by
  rw [jsTrim, List.mem_reverse] at h
  have h2 := (List.dropWhile_suffix isJsWhitespace).sublist.subset h
  rw [List.mem_reverse] at h2
  exact (List.dropWhile_suffix isJsWhitespace).sublist.subset h2

/-- C10: the text handed to the segmenter is whitespace-normalized — no two
consecutive whitespace characters, no leading or trailing whitespace — and
the normalization is idempotent. -/
theorem cleanRawText_normalized (raw : String) :
    WsSeparated (cleanRawText raw).data ∧
    (∀ c, (cleanRawText raw).data.head? = some c →
      isJsWhitespace c = false) ∧
    (∀ c, (cleanRawText raw).data.getLast? = some c →
      isJsWhitespace c = false) ∧
    cleanRawText (cleanRawText raw) = cleanRawText raw := by
  obtain ⟨hsep, hhead, hlast⟩ :=
    jsTrim_spec (collapseWs raw.data) (collapseWsAux_spec raw.data).1
  have hdata : (cleanRawText raw).data = jsTrim (collapseWs raw.data) := rfl
  refine ⟨hdata ▸ hsep, hdata ▸ hhead, hdata ▸ hlast, ?_⟩
  have hsp : ∀ c ∈ (cleanRawText raw).data, isJsWhitespace c = true →
      c = ' ' := by
    intro c hc
    rw [hdata] at hc
    exact collapseWsAux_ws_eq_space raw.data false c (mem_jsTrim hc)
  apply String.ext
  show jsTrim (collapseWs (cleanRawText raw).data) = (cleanRawText raw).data
  have hsepX : WsSeparated (cleanRawText raw).data := by
    rw [hdata]
    exact hsep
  rw [collapseWs_fixed _ hsepX hsp]
  have h1 : (cleanRawText raw).data.dropWhile isJsWhitespace =
      (cleanRawText raw).data :=
    dropWhile_of_head_not (by
      intro c hc
      rw [hdata] at hc
      exact hhead c hc)
  rw [jsTrim, h1]
  have h2 : (cleanRawText raw).data.reverse.dropWhile isJsWhitespace =
      (cleanRawText raw).data.reverse :=
    dropWhile_of_head_not (by
      intro c hc
      rw [List.head?_reverse, hdata] at hc
      exact hlast c hc)
  rw [h2, List.reverse_reverse]

/-- Witness for C10 at the concrete raw text `"  a\t b "` (whose cleaned
form is `"a b"`): its first character is the non-whitespace `'a'`, and
cleaning is idempotent on it. -/
theorem cleanRawText_normalized_witness :
    isJsWhitespace 'a' = false ∧
    cleanRawText (cleanRawText "  a\t b ") = cleanRawText "  a\t b " :=
  ⟨(cleanRawText_normalized "  a\t b ").2.1 'a' (by decide),
   (cleanRawText_normalized "  a\t b ").2.2.2⟩

/-! ## Batched upsert to the vector store

Embeds `uploadChunksToPinecone(textChunks, embeddingVectors)`
(`src/index.js` lines 142-177).  The store and the external `upsert` call
are modelled by an oracle `upsertOutcome : batchNumber → Option errMsg`
(`none` = the store acknowledged the batch); the records acknowledged so
far (`store`) and the batch numbers attempted (`attempted`) are threaded
explicitly. -/

/-- A record as prepared for `pineconeIndex.upsert`; `V` is the type of
vector components (opaque to this code). -/
structure UploadRecord (V : Type) where
  id : String
  values : List V
  metaText : String
  metaWordCount : Nat
  metaStartPosition : Int
  metaChunkId : String
deriving Repr, DecidableEq

/-- The `vectorsToUpload` preparation loop: pair chunk `i` with embedding
`i` and build the record with its metadata. -/
def vectorsToUpload {V : Type} (textChunks : List CharChunk)
    (embeddingVectors : List (List V)) : List (UploadRecord V) :=
  (textChunks.zip embeddingVectors).map fun p =>
    { id := p.1.id, values := p.2, metaText := p.1.text,
      metaWordCount := p.1.wordCount, metaStartPosition := p.1.startPosition,
      metaChunkId := p.1.id }

/-- The `for (let batchIndex = 0; ...; batchIndex += BATCH_SIZE)` upload
loop (`BATCH_SIZE = 100`), with fuel. -/
def uploadLoopFuel {V : Type} (vectors : List (UploadRecord V))
    (upsertOutcome : Nat → Option String) (batchIndex : Nat)
    (store : List (UploadRecord V)) (attempted : List Nat) :
    Nat → Option (List (UploadRecord V) × List Nat × Option String)
  | 0 => none
  | fuel + 1 =>
    if batchIndex < vectors.length then
      let currentBatch := jsSlice vectors (batchIndex : Int)
        ((batchIndex : Int) + (100 : Int))
      let batchNumber := batchIndex / 100 + 1
      match upsertOutcome batchNumber with
      | none => uploadLoopFuel vectors upsertOutcome (batchIndex + 100)
          (store ++ currentBatch) (attempted ++ [batchNumber]) fuel
      | some errMsg =>
          some (store, attempted ++ [batchNumber],
            some ("Batch upload failed: " ++ errMsg))
    else some (store, attempted, none)

/-- `uploadChunksToPinecone`: build the records, then upsert them in
batches of 100, aborting on the first failing batch.  The fuel
`length + 1` always suffices because the loop advances by 100 each
iteration. -/
def uploadChunksToPinecone {V : Type} (textChunks : List CharChunk)
    (embeddingVectors : List (List V))
    (upsertOutcome : Nat → Option String) :
    Option (List (UploadRecord V) × List Nat × Option String) :=
  let vectors := vectorsToUpload textChunks embeddingVectors
  uploadLoopFuel vectors upsertOutcome 0 [] [] (vectors.length + 1)

theorem append_take_drop_take {α : Type} (l : List α) (i a b : Nat) :
    (l.drop i).take a ++ (l.drop (i + a)).take b = (l.drop i).take (a + b) := by
  rw [List.take_add]
  congr 1
  rw [List.drop_drop]
  try congr 1
  try omega

theorem uploadLoopFuel_step_none {V : Type} (r : List (UploadRecord V))
    (oracle : Nat → Option String) (bi : Nat) (store : List (UploadRecord V))
    (att : List Nat) (fuel : Nat) (hbi : bi < r.length)
    (hnone : oracle (bi / 100 + 1) = none) :
    uploadLoopFuel r oracle bi store att (fuel + 1) =
      uploadLoopFuel r oracle (bi + 100)
        (store ++ (r.drop bi).take 100) (att ++ [bi / 100 + 1]) fuel := by
  rw [uploadLoopFuel, if_pos hbi]
  have hslice : jsSlice r (bi : Int) ((bi : Int) + (100 : Int)) =
      (r.drop bi).take 100 := by
    have := jsSlice_nat r bi 100
    simpa using this
  simp only [hnone, hslice]

theorem uploadLoopFuel_step_some {V : Type} (r : List (UploadRecord V))
    (oracle : Nat → Option String) (bi : Nat) (store : List (UploadRecord V))
    (att : List Nat) (fuel : Nat) (msg : String) (hbi : bi < r.length)
    (hsome : oracle (bi / 100 + 1) = some msg) :
    uploadLoopFuel r oracle bi store att (fuel + 1) =
      some (store, att ++ [bi / 100 + 1],
        some ("Batch upload failed: " ++ msg)) := by
  rw [uploadLoopFuel, if_pos hbi]
  simp only [hsome]

theorem uploadLoopFuel_exit {V : Type} (r : List (UploadRecord V))
    (oracle : Nat → Option String) (bi : Nat) (store : List (UploadRecord V))
    (att : List Nat) (fuel : Nat) (hbi : ¬ bi < r.length) :
    uploadLoopFuel r oracle bi store att (fuel + 1) =
      some (store, att, none) := by
  rw [uploadLoopFuel, if_neg hbi]

/-- Behaviour of the upload loop from batch boundary `j·100` when every
remaining batch succeeds. -/
theorem uploadLoopFuel_success {V : Type} (r : List (UploadRecord V))
    (oracle : Nat → Option String) :
    ∀ (fuel j : Nat) (store : List (UploadRecord V)) (att : List Nat),
      r.length - j * 100 < fuel →
      (∀ b, j < b → oracle b = none) →
      uploadLoopFuel r oracle (j * 100) store att fuel =
        some (store ++ r.drop (j * 100),
          att ++ List.range' (j + 1) ((r.length + 99) / 100 - j), none) := by
  intro fuel
  induction fuel with
  | zero => intro j store att h _; omega
  | succ fuel ih =>
    intro j store att h hsucc
    by_cases hj : j * 100 < r.length
    · have hbn : j * 100 / 100 + 1 = j + 1 := by
        rw [Nat.mul_div_cancel j (by omega : 0 < 100)]
      rw [uploadLoopFuel_step_none r oracle (j * 100) store att fuel hj
        (by rw [hbn]; exact hsucc (j + 1) (by omega))]
      rw [show j * 100 + 100 = (j + 1) * 100 by ring]
      rw [ih (j + 1) _ _ (by omega) (fun b hb => hsucc b (by omega))]
      have hnb : j + 1 ≤ (r.length + 99) / 100 := by
        rw [Nat.le_div_iff_mul_le (by omega : 0 < 100)]
        omega
      have e1 : store ++ (r.drop (j * 100)).take 100 ++
          r.drop ((j + 1) * 100) = store ++ r.drop (j * 100) := by
        rw [List.append_assoc]
        congr 1
        rw [show (j + 1) * 100 = j * 100 + 100 by ring]
        calc (r.drop (j * 100)).take 100 ++ r.drop (j * 100 + 100)
            = (r.drop (j * 100)).take 100 ++
              (r.drop (j * 100 + 100)).take (r.length - j * 100 - 100) := by
              congr 1
              rw [List.take_of_length_le (by
                rw [List.length_drop]
                omega)]
          _ = (r.drop (j * 100)).take (100 + (r.length - j * 100 - 100)) :=
              append_take_drop_take r (j * 100) 100 _
          _ = r.drop (j * 100) := by
              rw [List.take_of_length_le (by
                rw [List.length_drop]
                omega)]
      have e2 : att ++ [j * 100 / 100 + 1] ++ List.range' (j + 1 + 1)
            ((r.length + 99) / 100 - (j + 1)) =
          att ++ List.range' (j + 1) ((r.length + 99) / 100 - j) := by
        rw [hbn, List.append_assoc]
        congr 1
        have hsub : (r.length + 99) / 100 - j =
            ((r.length + 99) / 100 - (j + 1)) + 1 := by omega
        rw [hsub, List.range'_succ]
        rfl
      rw [e1, e2]
    · rw [uploadLoopFuel_exit r oracle _ store att fuel hj]
      have hnb : (r.length + 99) / 100 ≤ j := by
        by_contra hcon
        have : j + 1 ≤ (r.length + 99) / 100 := by omega
        rw [Nat.le_div_iff_mul_le (by omega : 0 < 100)] at this
        omega
      rw [List.drop_of_length_le (by omega), List.append_nil]
      rw [show (r.length + 99) / 100 - j = 0 by omega]
      simp [List.range']

/-- Behaviour of the upload loop from batch boundary `j·100` when batch `k`
is the first failing batch: the store keeps exactly the records of the
earlier batches, batches after `k` are never attempted, and the raised
error carries (only) the underlying cause's message. -/
theorem uploadLoopFuel_failure {V : Type} (r : List (UploadRecord V))
    (oracle : Nat → Option String) (k : Nat) (msg : String)
    (hk : oracle k = some msg)
    (hbefore : ∀ b, 0 < b → b < k → oracle b = none)
    (hklen : (k - 1) * 100 < r.length) :
    ∀ (fuel j : Nat) (store : List (UploadRecord V)) (att : List Nat),
      r.length - j * 100 < fuel → j < k →
      uploadLoopFuel r oracle (j * 100) store att fuel =
        some (store ++ (r.drop (j * 100)).take ((k - 1 - j) * 100),
          att ++ List.range' (j + 1) (k - j),
          some ("Batch upload failed: " ++ msg)) := by
  intro fuel
  induction fuel with
  | zero => intro j store att h _; omega
  | succ fuel ih =>
    intro j store att h hjk
    have hj : j * 100 < r.length := by
      have : j * 100 ≤ (k - 1) * 100 := by
        apply Nat.mul_le_mul_right
        omega
      omega
    have hbn : j * 100 / 100 + 1 = j + 1 := by
      rw [Nat.mul_div_cancel j (by omega : 0 < 100)]
    by_cases heq : j + 1 = k
    · rw [uploadLoopFuel_step_some r oracle (j * 100) store att fuel msg hj
        (by rw [hbn, heq]; exact hk)]
      rw [hbn, heq]
      rw [show k - 1 - j = 0 by omega, Nat.zero_mul, List.take_zero,
        List.append_nil]
      rw [show k - j = 1 by omega]
      rfl
    · rw [uploadLoopFuel_step_none r oracle (j * 100) store att fuel hj
        (by rw [hbn]; exact hbefore (j + 1) (by omega) (by omega))]
      rw [show j * 100 + 100 = (j + 1) * 100 by ring]
      rw [ih (j + 1) _ _ (by omega) (by omega)]
      have e1 : store ++ (r.drop (j * 100)).take 100 ++
          (r.drop ((j + 1) * 100)).take ((k - 1 - (j + 1)) * 100) =
          store ++ (r.drop (j * 100)).take ((k - 1 - j) * 100) := by
        rw [List.append_assoc]
        congr 1
        rw [show (j + 1) * 100 = j * 100 + 100 by ring]
        rw [append_take_drop_take r (j * 100) 100 ((k - 1 - (j + 1)) * 100)]
        congr 1
        have hx : k - 1 - j = (k - 1 - (j + 1)) + 1 := by omega
        rw [hx]
        ring
      have e2 : att ++ [j * 100 / 100 + 1] ++ List.range' (j + 1 + 1)
            (k - (j + 1)) =
          att ++ List.range' (j + 1) (k - j) := by
        rw [hbn, List.append_assoc]
        congr 1
        have hsub : k - j = (k - (j + 1)) + 1 := by omega
        rw [hsub, List.range'_succ]
        rfl
      rw [e1, e2]

/-- Boolean check that `pat` occurs at the start of `l`. -/
def begMatch : List Char → List Char → Bool
  | _, [] => true
  | [], _ :: _ => false
  | a :: as, b :: bs => a == b && begMatch as bs

/-- Boolean check that `pat` occurs somewhere inside `l`. -/
def hasSubList : List Char → List Char → Bool
  | [], pat => begMatch [] pat
  | a :: t, pat => begMatch (a :: t) pat || hasSubList t pat

/-- Boolean substring check on strings. -/
def strContains (s pat : String) : Bool := hasSubList s.data pat.data

/-- Counterexample to C3 as stated: with 150 records and an upsert oracle
failing at batch 2 with cause `"boom"`, the raised error is exactly
`"Batch upload failed: boom"` — the failing batch's position (2) is
written only to the console log, not to the raised error, which does not
contain the digit `2` at all.  (The other parts of the claim do hold:
batch 1's 100 records are in the store and batch 3 is never attempted.) -/
theorem uploadChunks_error_counterexample :
    uploadChunksToPinecone (List.replicate 150
        ({ id := "chunk_0", text := "x", wordCount := 1, startPosition := 0,
           charCount := 1 } : CharChunk))
      (List.replicate 150 ([0] : List Nat))
      (fun b => if b = 2 then some "boom" else none) =
      some ((vectorsToUpload (List.replicate 150
          ({ id := "chunk_0", text := "x", wordCount := 1, startPosition := 0,
             charCount := 1 } : CharChunk))
          (List.replicate 150 ([0] : List Nat))).take 100, [1, 2],
        some ("Batch upload failed: " ++ "boom")) ∧
    strContains ("Batch upload failed: " ++ "boom") "2" = false := by
  constructor
  · have hlen : (vectorsToUpload (List.replicate 150
        ({ id := "chunk_0", text := "x", wordCount := 1, startPosition := 0,
           charCount := 1 } : CharChunk))
        (List.replicate 150 ([0] : List Nat))).length = 150 := by
      rw [vectorsToUpload, List.length_map, List.length_zip,
        List.length_replicate, List.length_replicate, min_self]
    show uploadLoopFuel _ _ 0 [] [] _ = _
    rw [show (0 : Nat) = 0 * 100 from rfl]
    rw [uploadLoopFuel_failure _ _ 2 "boom" rfl
      (by
        intro b hb1 hb2
        have : b = 1 := by omega
        rw [this]
        rfl)
      (by rw [hlen]; omega) _ 0 [] [] (by rw [hlen]; omega) (by omega)]
    simp [hlen, show List.range' 1 2 = [1, 2] from rfl]
  · decide

/-- C3 (amended): `uploadChunksToPinecone` writes the records in fixed-size
batches of 100 (the last possibly smaller); if every batch succeeds, all
records are stored and batches `1..⌈n/100⌉` are attempted in order; if
batch `k` is the first to fail, exactly the records of batches `1..k-1`
are in the store, only batches `1..k` were attempted (later ones never),
and the raised error is `"Batch upload failed: "` followed by the
underlying cause — the failing batch's position is logged but not part of
the raised error. -/
theorem uploadChunks_batch_isolation :
    (∀ (V : Type) (chunks : List CharChunk) (vecs : List (List V))
      (oracle : Nat → Option String),
      (∀ b, oracle b = none) →
      uploadChunksToPinecone chunks vecs oracle =
        some (vectorsToUpload chunks vecs,
          List.range' 1 (((vectorsToUpload chunks vecs).length + 99) / 100),
          none)) ∧
    (∀ (V : Type) (chunks : List CharChunk) (vecs : List (List V))
      (oracle : Nat → Option String) (k : Nat) (msg : String),
      0 < k → oracle k = some msg →
      (∀ b, 0 < b → b < k → oracle b = none) →
      (k - 1) * 100 < (vectorsToUpload chunks vecs).length →
      uploadChunksToPinecone chunks vecs oracle =
        some ((vectorsToUpload chunks vecs).take ((k - 1) * 100),
          List.range' 1 k,
          some ("Batch upload failed: " ++ msg))) := by
  constructor
  · intro V chunks vecs oracle hall
    show uploadLoopFuel _ _ 0 [] [] _ = _
    rw [show (0 : Nat) = 0 * 100 from rfl]
    rw [uploadLoopFuel_success _ _ _ 0 [] [] (by omega)
      (fun b _ => hall b)]
    simp
  · intro V chunks vecs oracle k msg hk0 hk hbefore hklen
    show uploadLoopFuel _ _ 0 [] [] _ = _
    rw [show (0 : Nat) = 0 * 100 from rfl]
    rw [uploadLoopFuel_failure _ _ k msg hk hbefore hklen _ 0 [] []
      (by omega) (by omega)]
    simp

/-- Witness for C3 (amended): one all-success run (1 record, 1 batch) and
one run failing at batch 2 of 2 (150 records). -/
theorem uploadChunks_batch_isolation_witness :
    uploadChunksToPinecone
        [({ id := "chunk_0", text := "y", wordCount := 1, startPosition := 0,
            charCount := 1 } : CharChunk)] [([7] : List Nat)]
        (fun _ => none) =
      some (vectorsToUpload
          [({ id := "chunk_0", text := "y", wordCount := 1, startPosition := 0,
              charCount := 1 } : CharChunk)] [([7] : List Nat)],
        List.range' 1 (((vectorsToUpload
          [({ id := "chunk_0", text := "y", wordCount := 1, startPosition := 0,
              charCount := 1 } : CharChunk)]
          [([7] : List Nat)]).length + 99) / 100), none) ∧
    uploadChunksToPinecone (List.replicate 150
        ({ id := "chunk_0", text := "x", wordCount := 1, startPosition := 0,
           charCount := 1 } : CharChunk))
      (List.replicate 150 ([0] : List Nat))
      (fun b => if b = 2 then some "oops" else none) =
      some ((vectorsToUpload (List.replicate 150
          ({ id := "chunk_0", text := "x", wordCount := 1, startPosition := 0,
             charCount := 1 } : CharChunk))
          (List.replicate 150 ([0] : List Nat))).take ((2 - 1) * 100),
        List.range' 1 2, some ("Batch upload failed: " ++ "oops")) :=
  ⟨uploadChunks_batch_isolation.1 Nat _ _ _ (fun _ => rfl),
   uploadChunks_batch_isolation.2 Nat _ _ _ 2 "oops" (by decide) rfl
     (by
       intro b hb1 hb2
       have : b = 1 := by omega
       rw [this]
       rfl)
     (by
       rw [vectorsToUpload, List.length_map, List.length_zip,
         List.length_replicate, List.length_replicate]
       omega)⟩

/-! ## Query phase of `searchAndAnswer`

Embeds `searchAndAnswer` (`src/index.js` lines 208-282) and
`answerWithGPT4O` (lines 181-198).  The vector store's query result is a
list of matches (`match.metadata?.text` is an `Option`, `none` = missing
metadata), and the generation capability is an oracle
`complete : prompt → completion`.  The second component of the result
records whether `answerWithGPT4O` (the generation capability) was
invoked. -/

/-- One match of `pineconeIndex.query`. -/
structure QueryMatch where
  id : String
  score : ℚ
  text : Option String
deriving Repr, DecidableEq

/-- One element of the returned `sources` array. -/
structure SourceEntry where
  id : String
  similarity : ℚ
  preview : String
  fullText : String
deriving Repr, DecidableEq

/-- The object returned by `searchAndAnswer`. -/
structure SAResult where
  success : Bool
  query : String
  answer : String
  sources : List SourceEntry
deriving Repr, DecidableEq

/-- JavaScript `a || b` for strings (the empty string is falsy). -/
def jsOrElse (s fallback : String) : String := if s = "" then fallback else s

/-- JavaScript `str.slice(a, b)`. -/
def jsSliceStr (s : String) (start stop : Int) : String :=
  ⟨jsSlice s.data start stop⟩

/-- `topChunks.map((c, i) => ...).join('\n\n')`: the numbered context
block of the grounding prompt. -/
def contextBlock (topChunks : List String) : String :=
  String.intercalate "\n\n" (topChunks.enum.map fun p =>
    "Context " ++ toString (p.1 + 1) ++ ": " ++ p.2)

/-- The grounding prompt template of `answerWithGPT4O`. -/
def answerPrompt (question : String) (topChunks : List String) : String :=
  "\nYou are an expert assistant. Use ONLY the following context to answer the user\x27s question.\n\n"
  ++ contextBlock topChunks ++ "\n\nQuestion: " ++ question ++ "\nAnswer:\n  "

/-- `answerWithGPT4O`: build the prompt, call the generation capability,
trim the completion. -/
def answerWithGPT4O (question : String) (topChunks : List String)
    (complete : String → String) : String :=
  ⟨jsTrim (complete (answerPrompt question topChunks)).data⟩

/-- The query/answer phase of `searchAndAnswer` (after ingestion), as a
function of the store's `matches`.  Returns the result object and whether
the generation capability was invoked. -/
def searchAndAnswerCore (searchQuery : String) (queryMatches : List QueryMatch)
    (complete : String → String) : SAResult × Bool :=
  if 0 < queryMatches.length then
    let sources := queryMatches.map fun m =>
      { id := m.id,
        similarity := m.score,
        preview :=
          match m.text with
          | none => "No text available"
          | some t => jsOrElse (jsSliceStr t 0 300) "No text available",
        fullText :=
          match m.text with
          | none => ""
          | some t => jsOrElse t "" : SourceEntry }
    let topChunks := queryMatches.map fun m =>
      match m.text with
      | none => ""
      | some t => jsOrElse t ""
    ({ success := true, query := searchQuery,
       answer := answerWithGPT4O searchQuery topChunks complete,
       sources := sources }, true)
  else
    ({ success := true, query := searchQuery,
       answer := "I couldn\x27t find any relevant information to answer your question.",
       sources := [] }, false)

/-- C4: with zero matches, `searchAndAnswer`'s query phase returns
`sources = []` and the fixed no-relevant-information answer, reports
success, and never invokes the generation capability (for any `complete`
oracle — the result does not depend on it). -/
theorem emptyMatches_short_circuit (q : String) (complete : String → String) :
    searchAndAnswerCore q [] complete =
      ({ success := true, query := q,
         answer := "I couldn\x27t find any relevant information to answer your question.",
         sources := [] }, false) := rfl

theorem take_min_length {α : Type} (l : List α) (n : Nat) :
    l.take (min n l.length) = l.take n := by
  by_cases h : n ≤ l.length
  · rw [min_eq_left h]
  · rw [min_eq_right (by omega), List.take_of_length_le (le_refl _),
      List.take_of_length_le (by omega)]

theorem jsSliceStr_first (t : String) (n : Nat) :
    jsSliceStr t 0 (n : Int) = String.mk (t.data.take n) := by
  rw [jsSliceStr]
  have := jsSlice_nat t.data 0 n
  simp only [Nat.cast_zero, zero_add, List.drop_zero] at this
  rw [this]

/-- C8 (amended): the `preview` field of each returned source is the first
300 characters of the passage text — the whole text when it is not longer,
and the placeholder when the text is missing or empty.  No truncation
marker is part of the field (the marker is printed to the console only). -/
theorem preview_first300 (q : String) (queryMatches : List QueryMatch)
    (complete : String → String) :
    ((searchAndAnswerCore q queryMatches complete).1.sources).map
        (fun s => s.preview) =
      queryMatches.map (fun m =>
        match m.text with
        | none => "No text available"
        | some t =>
            if t.data = [] then "No text available"
            else String.mk (t.data.take 300)) := by
  rw [searchAndAnswerCore]
  by_cases h : 0 < queryMatches.length
  · rw [if_pos h]
    simp only [List.map_map]
    apply List.map_congr_left
    intro m _
    simp only [Function.comp_apply]
    cases ht : m.text with
    | none => simp [ht]
    | some t =>
      simp only [ht]
      rw [show (300 : Int) = ((300 : Nat) : Int) from by norm_num]
      rw [jsSliceStr_first t 300, jsOrElse]
      by_cases he : t.data = []
      · rw [if_pos (by
          apply String.ext
          simp [he]), if_pos he]
      · have hne : String.mk (t.data.take 300) ≠ "" := by
          intro hcon
          have h3 : t.data.take 300 = [] := congrArg String.data hcon
          rw [List.take_eq_nil_iff] at h3
          rcases h3 with h3 | h3
          · omega
          · exact he h3
        rw [if_neg hne, if_neg he]
  · rw [if_neg h]
    have : queryMatches = [] := by
      cases queryMatches with
      | nil => rfl
      | cons a l => simp at h
    rw [this]
    rfl

set_option maxRecDepth 4096 in
/-- Counterexample to C8 as stated: for a passage of 301 characters the
returned `preview` is exactly the first 300 characters with NO truncation
marker appended, although the passage is longer than 300 characters. -/
theorem preview_no_marker_counterexample :
    ((searchAndAnswerCore "q"
        [{ id := "m0", score := 0,
           text := some (String.mk (List.replicate 301 'a')) }]
        (fun _ => "ans")).1.sources).map (fun s => s.preview) =
      [String.mk (List.replicate 300 'a')] ∧
    String.mk (List.replicate 300 'a') ≠
      String.mk (List.replicate 300 'a') ++ "..." := by
  constructor
  · decide
  · decide

/-! ## Retrieval ranking

Embeds the local-search variant `searchQuery` from `src/unnamed/part_001`
(lines 59-82): compute a similarity for every stored embedding, sort the
`(sim, idx)` pairs by descending similarity, keep the first `topK`
indices.  `cosineSimilarity` is the external similarity capability,
passed in as `simOf`.  JavaScript's `Array.prototype.sort` is a stable
comparison sort; it is modelled by a comparison sort on the same
descending-by-`sim` order (the properties proved below do not depend on
the order of ties). -/

/-- The ranking core of `searchQuery` (`part_001`): `topIndices`. -/
def searchQueryRank {E : Type} (embeddings : List E) (queryEmbedding : E)
    (simOf : E → E → ℚ) (topK : Nat) : List Nat :=
  let similarities := embeddings.map fun e => simOf e queryEmbedding
  let pairs := similarities.enum.map fun p => (p.2, p.1)
  let sorted := List.insertionSort (fun a b : ℚ × Nat => b.1 ≤ a.1) pairs
  (sorted.take topK).map fun p => p.2

theorem pair_mem_enum_swap {sims : List ℚ} {p : ℚ × Nat}
    (hp : p ∈ sims.enum.map fun q => (q.2, q.1)) :
    p.2 < sims.length ∧ sims.getD p.2 0 = p.1 := by
  obtain ⟨q, hq, hqp⟩ := List.mem_map.mp hp
  have hget : sims[q.1]? = some q.2 := by
    have := List.mk_mem_enum_iff_getElem?.mp (by
      show (q.1, q.2) ∈ sims.enum
      simpa using hq)
    exact this
  have hlen : q.1 < sims.length := by
    by_contra hcon
    rw [List.getElem?_eq_none (by omega)] at hget
    cases hget
  constructor
  · rw [← hqp]
    exact hlen
  · rw [← hqp]
    show sims.getD q.1 0 = q.2
    rw [List.getD_eq_getElem?_getD, hget]
    rfl

theorem enum_swap_mem {sims : List ℚ} {j : Nat} (hj : j < sims.length) :
    (sims.getD j 0, j) ∈ sims.enum.map fun q => (q.2, q.1) := by
  apply List.mem_map.mpr
  refine ⟨(j, sims.getD j 0), ?_, rfl⟩
  apply List.mk_mem_enum_iff_getElem?.mpr
  rw [List.getElem?_eq_getElem hj]
  rw [List.getD_eq_getElem?_getD, List.getElem?_eq_getElem hj]
  rfl

/-- C7: retrieval returns at most `topK` matches in non-increasing score
order and passes scores through raw.  (1) In `searchAndAnswer`
(`src/index.js`), each returned source's `similarity` is exactly the
store's `match.score`.  (2) In the local-search variant (`part_001`), the
returned indices are valid, at most `topK` many, their similarities are
non-increasing, and every excluded index has a similarity no larger than
every returned one (they are the `topK` largest). -/
theorem retrieval_topK_ranking :
    (∀ (q : String) (queryMatches : List QueryMatch)
      (complete : String → String),
      ((searchAndAnswerCore q queryMatches complete).1.sources).map
          (fun s => s.similarity) =
        queryMatches.map (fun m => m.score)) ∧
    (∀ (E : Type) (embeddings : List E) (queryEmbedding : E)
      (simOf : E → E → ℚ) (topK : Nat),
      (searchQueryRank embeddings queryEmbedding simOf topK).length ≤ topK ∧
      (∀ i ∈ searchQueryRank embeddings queryEmbedding simOf topK,
        i < (embeddings.map fun e => simOf e queryEmbedding).length) ∧
      ((searchQueryRank embeddings queryEmbedding simOf topK).map
        (fun i => (embeddings.map fun e => simOf e queryEmbedding).getD i 0)
        ).Pairwise (fun a b => b ≤ a) ∧
      (∀ j, j < (embeddings.map fun e => simOf e queryEmbedding).length →
        j ∉ searchQueryRank embeddings queryEmbedding simOf topK →
        ∀ i ∈ searchQueryRank embeddings queryEmbedding simOf topK,
          (embeddings.map fun e => simOf e queryEmbedding).getD j 0 ≤
            (embeddings.map fun e => simOf e queryEmbedding).getD i 0)) := by
  constructor
  · intro q queryMatches complete
    rw [searchAndAnswerCore]
    by_cases h : 0 < queryMatches.length
    · rw [if_pos h]
      simp [List.map_map]
    · rw [if_neg h]
      have : queryMatches = [] := by
        cases queryMatches with
        | nil => rfl
        | cons a l => simp at h
      rw [this]
      rfl
  · intro E embeddings queryEmbedding simOf topK
    set sims := embeddings.map fun e => simOf e queryEmbedding with hsims
    set pairs := sims.enum.map (fun p => (p.2, p.1)) with hpairs
    set sorted := List.insertionSort (fun a b : ℚ × Nat => b.1 ≤ a.1) pairs
      with hsorted
    have hout : searchQueryRank embeddings queryEmbedding simOf topK =
        (sorted.take topK).map fun p => p.2 := rfl
    haveI : IsTotal (ℚ × Nat) (fun a b => b.1 ≤ a.1) :=
      ⟨fun a b => le_total b.1 a.1⟩
    haveI : IsTrans (ℚ × Nat) (fun a b => b.1 ≤ a.1) :=
      ⟨fun a b c hab hbc => le_trans hbc hab⟩
    have hsortedPW : sorted.Pairwise (fun a b => b.1 ≤ a.1) :=
      List.sorted_insertionSort _ pairs
    have hperm : List.Perm sorted pairs := List.perm_insertionSort _ pairs
    have hmem_sorted : ∀ p ∈ sorted, p.2 < sims.length ∧
        sims.getD p.2 0 = p.1 := by
      intro p hp
      exact pair_mem_enum_swap (hperm.subset hp)
    constructor
    · rw [hout, List.length_map]
      exact le_trans (List.length_take_le topK sorted) (le_refl _)
    constructor
    · intro i hi
      rw [hout] at hi
      obtain ⟨p, hp, hpi⟩ := List.mem_map.mp hi
      have := hmem_sorted p (List.mem_of_mem_take hp)
      rw [← hpi]
      exact this.1
    constructor
    · rw [hout, List.map_map]
      have htakePW : (sorted.take topK).Pairwise (fun a b => b.1 ≤ a.1) :=
        hsortedPW.sublist (List.take_sublist topK sorted)
      rw [List.pairwise_map]
      apply List.Pairwise.imp_of_mem ?_ htakePW
      intro a b ha hb hab
      have hma := hmem_sorted a (List.mem_of_mem_take ha)
      have hmb := hmem_sorted b (List.mem_of_mem_take hb)
      show sims.getD b.2 0 ≤ sims.getD a.2 0
      rw [hma.2, hmb.2]
      exact hab
    · intro j hj hjout i hiout
      rw [hout] at hjout hiout
      have hqmem : (sims.getD j 0, j) ∈ sorted :=
        hperm.mem_iff.mpr (enum_swap_mem hj)
      have hsplit : sorted = sorted.take topK ++ sorted.drop topK :=
        (List.take_append_drop topK sorted).symm
      have hqdrop : (sims.getD j 0, j) ∈ sorted.drop topK := by
        rcases List.mem_append.mp (hsplit ▸ hqmem) with hq | hq
        · exact absurd (List.mem_map.mpr ⟨_, hq, rfl⟩) hjout
        · exact hq
      obtain ⟨p, hp, hpi⟩ := List.mem_map.mp hiout
      have hPW2 := hsplit ▸ hsortedPW
      have hrel := (List.pairwise_append.mp hPW2).2.2 p hp _ hqdrop
      have hmp := hmem_sorted p (List.mem_of_mem_take hp)
      show sims.getD j 0 ≤ sims.getD i 0
      rw [← hpi, hmp.2]
      exact hrel

/-- Witness for C7 at similarities `[1, 3, 2]`, `topK = 2` (similarity
oracle `simOf e q = e` on stored values, query `1`): index `0`
(similarity 1) is excluded and its similarity is at most that of the
returned index `2` (similarity 2). -/
theorem retrieval_topK_ranking_witness :
    (0 : Nat) ∉ searchQueryRank [(1 : ℚ), 3, 2] 1 (fun e _ => e) 2 ∧
    (2 : Nat) ∈ searchQueryRank [(1 : ℚ), 3, 2] 1 (fun e _ => e) 2 ∧
    ([(1 : ℚ), 3, 2].map fun e => (fun e _ => e : ℚ → ℚ → ℚ) e 1).getD 0 0 ≤
      ([(1 : ℚ), 3, 2].map fun e =>
        (fun e _ => e : ℚ → ℚ → ℚ) e 1).getD 2 0 :=
  ⟨by decide, by decide,
   (retrieval_topK_ranking.2 ℚ [(1 : ℚ), 3, 2] 1 (fun e _ => e) 2).2.2.2
     0 (by decide) (by decide) 2 (by decide)⟩

/-! ## Full `searchAndAnswer` flow (ingestion + query)

Embeds `searchAndAnswer` (`src/index.js` lines 208-282) end to end.  Every
call first runs the full ingestion — `loadAndCleanTextFile(textFilePath)`,
`createTextChunks(cleanedTextContent, 500)` (character variant),
`generateEmbeddingsForChunks`, `uploadChunksToPinecone` — and only then
queries the store and synthesizes an answer.  `textFilePath` starts as
`null` (`none`) and is set only from `options.requestInfo.files[0]`.
External capabilities are oracles: `fsRead` (with `fsRead none` the
behaviour of `fs.readFileSync(null)`), `embedText`, `upsertOutcome`,
`queryStore`, `complete`. -/

/-- Which capabilities a run invoked: the path handed to
`loadAndCleanTextFile` (if it was called), the upsert batches attempted,
and whether the store query / the generation capability were reached. -/
structure CallLog where
  loadPath : Option (Option String)
  upsertAttempts : List Nat
  queried : Bool
  genCalled : Bool
deriving Repr, DecidableEq

/-- The file path `searchAndAnswer` selects: `null` unless
`requestInfo.files` is nonempty (then `files[0]`'s path). -/
def selectedPath (requestInfo : Option (List String)) : Option String :=
  match requestInfo with
  | some (p :: _) => some p
  | _ => none

/-- `searchAndAnswer(searchQuery, maxResults, options)`. -/
def searchAndAnswerFull (searchQuery : String) (maxResults : Nat)
    (requestInfo : Option (List String))
    (fsRead : Option String → Except String String)
    (embedText : String → List ℚ)
    (upsertOutcome : Nat → Option String)
    (queryStore : List ℚ → Nat → List QueryMatch)
    (complete : String → String) :
    Except String SAResult × CallLog :=
  let textFilePath := selectedPath requestInfo
  match fsRead textFilePath with
  | Except.error e =>
      (Except.error ("Failed to load text file: " ++ e),
       { loadPath := some textFilePath, upsertAttempts := [],
         queried := false, genCalled := false })
  | Except.ok raw =>
      let cleanedTextContent := cleanRawText raw
      match createTextChunksChar cleanedTextContent 500 with
      | none =>
          -- fuel artifact; unreachable since the chunk size 500 is positive
          (Except.error "segmentation did not terminate",
           { loadPath := some textFilePath, upsertAttempts := [],
             queried := false, genCalled := false })
      | some textChunks =>
          let embeddingVectors := textChunks.map fun c => embedText c.text
          match uploadChunksToPinecone textChunks embeddingVectors
            upsertOutcome with
          | none =>
              -- fuel artifact; unreachable since the batch size 100 is positive
              (Except.error "upload loop did not terminate",
               { loadPath := some textFilePath, upsertAttempts := [],
                 queried := false, genCalled := false })
          | some (_store, attempts, some err) =>
              (Except.error err,
               { loadPath := some textFilePath, upsertAttempts := attempts,
                 queried := false, genCalled := false })
          | some (_store, attempts, none) =>
              let queryEmbedding := embedText searchQuery
              let res := searchAndAnswerCore searchQuery
                (queryStore queryEmbedding maxResults) complete
              (Except.ok res.1,
               { loadPath := some textFilePath, upsertAttempts := attempts,
                 queried := true, genCalled := res.2 })

/-- C9: (1) when no uploaded file is supplied (no `requestInfo`, or an
empty file list), the path handed to `loadAndCleanTextFile` is `null` —
the default corpus path is NOT used — and the call fails with
`"Failed to load text file: ..."` before any upsert, store query, or
generation call.  (2) In every run, the store is queried only after the
file was loaded (with the request-selected path), and the generation
capability is invoked only in runs that queried the store. -/
theorem searchAndAnswer_ingests_first :
    (∀ (q : String) (maxResults : Nat) (requestInfo : Option (List String))
      (fsRead : Option String → Except String String)
      (embedText : String → List ℚ) (upsertOutcome : Nat → Option String)
      (queryStore : List ℚ → Nat → List QueryMatch)
      (complete : String → String) (e : String),
      (requestInfo = none ∨ requestInfo = some []) →
      fsRead none = Except.error e →
      searchAndAnswerFull q maxResults requestInfo fsRead embedText
          upsertOutcome queryStore complete =
        (Except.error ("Failed to load text file: " ++ e),
         { loadPath := some none, upsertAttempts := [],
           queried := false, genCalled := false })) ∧
    (∀ (q : String) (maxResults : Nat) (requestInfo : Option (List String))
      (fsRead : Option String → Except String String)
      (embedText : String → List ℚ) (upsertOutcome : Nat → Option String)
      (queryStore : List ℚ → Nat → List QueryMatch)
      (complete : String → String),
      ((searchAndAnswerFull q maxResults requestInfo fsRead embedText
          upsertOutcome queryStore complete).2.genCalled = true →
        (searchAndAnswerFull q maxResults requestInfo fsRead embedText
          upsertOutcome queryStore complete).2.queried = true) ∧
      ((searchAndAnswerFull q maxResults requestInfo fsRead embedText
          upsertOutcome queryStore complete).2.queried = true →
        (searchAndAnswerFull q maxResults requestInfo fsRead embedText
          upsertOutcome queryStore complete).2.loadPath =
          some (selectedPath requestInfo))) := by
  constructor
  · intro q maxResults requestInfo fsRead embedText upsertOutcome queryStore
      complete e hreq hfs
    have hpath : selectedPath requestInfo = none := by
      rcases hreq with h | h <;> rw [h] <;> rfl
    rw [searchAndAnswerFull]
    simp only [hpath, hfs]
  · intro q maxResults requestInfo fsRead embedText upsertOutcome queryStore
      complete
    rw [searchAndAnswerFull]
    cases hfs : fsRead (selectedPath requestInfo) with
    | error e => simp
    | ok raw =>
      simp only
      cases hch : createTextChunksChar (cleanRawText raw) 500 with
      | none => simp
      | some textChunks =>
        simp only
        cases hup : uploadChunksToPinecone textChunks
            (textChunks.map fun c => embedText c.text) upsertOutcome with
        | none => simp
        | some triple =>
          obtain ⟨store, attempts, outcome⟩ := triple
          cases outcome with
          | none => simp
          | some err => simp

/-- Witness for C9 with a concrete empty request and a file system whose
read of the `null` path fails with cause `"path is null"`. -/
theorem searchAndAnswer_ingests_first_witness :
    searchAndAnswerFull "hello" 3 none (fun _ => Except.error "path is null")
        (fun _ => []) (fun _ => none) (fun _ _ => []) (fun _ => "") =
      (Except.error ("Failed to load text file: " ++ "path is null"),
       { loadPath := some none, upsertAttempts := [],
         queried := false, genCalled := false }) :=
  searchAndAnswer_ingests_first.1 "hello" 3 none
    (fun _ => Except.error "path is null") (fun _ => []) (fun _ => none)
    (fun _ _ => []) (fun _ => "") "path is null" (Or.inl rfl) rfl

end GeoRAG
